import Mathlib

/-
Verification of a small read-only SQLite-file query engine (src/app/main.py).

The definitions below are a shallow embedding of the program:
  - read_varint, parse_serial, Page.__init__ are embedded at the byte level
    over a file modelled as a List Nat of byte values;
  - the B-tree traversal of Database.get_col_values_from_table is embedded
    over decoded pages (a store mapping page numbers to decoded page data),
    with explicit fuel for the while loops of the source;
  - outcomes distinguish normal completion (Res.ok), a raised runtime error
    such as KeyError, IndexError or TypeError (Res.err), and exhaustion of
    the fuel that bounds a source while loop (Res.fuelOut).
-/

/-- Outcome of running an embedded fragment of the program: normal result,
raised runtime error, or fuel exhaustion of a modelled while loop. -/
inductive Res (α : Type) where
  | ok (a : α) : Res α
  | err : Res α
  | fuelOut : Res α
deriving DecidableEq

def Res.bind {α β : Type} : Res α → (α → Res β) → Res β
  | .ok a, f => f a
  | .err, _ => .err
  | .fuelOut, _ => .fuelOut

def Res.map {α β : Type} (f : α → β) : Res α → Res β
  | .ok a => .ok (f a)
  | .err => .err
  | .fuelOut => .fuelOut

/-- Python substring containment helper: does the second list start with the first? -/
def charsPre : List Char → List Char → Bool
  | [], _ => true
  | _ :: _, [] => false
  | a :: as, b :: bs => a = b && charsPre as bs

/-- Python substring containment helper: does the first list occur inside the second? -/
def charsSub (pat : List Char) : List Char → Bool
  | [] => charsPre pat []
  | c :: cs => charsPre pat (c :: cs) || charsSub pat cs

/-- Embedding of the Python test (pat in s) on strings. -/
def strIn (pat s : String) : Bool := charsSub pat.data s.data

/-- Lexicographic comparison of char lists by code point, as Python
compares strings. -/
def charsLt : List Char → List Char → Bool
  | [], [] => false
  | [], _ :: _ => true
  | _ :: _, [] => false
  | a :: as, b :: bs =>
    if a.toNat < b.toNat then true
    else if b.toNat < a.toNat then false
    else charsLt as bs

/-- Embedding of the Python comparison (s < t) on strings. -/
def strLt (s t : String) : Bool := charsLt s.data t.data

/-! ## Varint decoder (read_varint in the source)

The source seeks to the given offset and repeatedly reads one byte: a byte
with the top bit set contributes its low 7 bits and the loop continues; a
byte with the top bit clear contributes 7 bits and ends the loop.  The
accumulated 7-bit groups, most significant first, form the result.  Reading
past the end of the file raises (ord of an empty read). -/

def readVarintLoop : List Nat → Nat → Nat → Res (Nat × Nat)
  | [], _, _ => .err
  | b :: rest, acc, next_offset =>
    if b >>> 7 = 1 then
      readVarintLoop rest (acc * 128 + (b ^^^ 128)) (next_offset + 1)
    else
      .ok (acc * 128 + b, next_offset + 1)

/-- Embedding of read_varint: decode a varint from the file at the given
offset, returning the value and the offset just past it. -/
def read_varint (stream : List Nat) (offset : Nat) : Res (Nat × Nat) :=
  readVarintLoop (stream.drop offset) 0 offset

/-! ## Varint encoder (modelled from the spec)

The encoder is not part of the source; the round-trip claim quantifies over
values encoded by the rules of the file format. -/

/-- Base-128 digits of a value, most significant first; the fuel bounds the
digit count and is always instantiated large enough. -/
def groupsAux : Nat → Nat → List Nat
  | 0, v => [v % 128]
  | fuel + 1, v => if v < 128 then [v] else groupsAux fuel (v / 128) ++ [v % 128]

/-- Base-128 digit list of a value, most significant first (up to 10 digits). -/
def varintGroups (v : Nat) : List Nat := groupsAux 9 v

/-- Set the continuation bit on every byte except the last. -/
def markHi : List Nat → List Nat
  | [] => []
  | [x] => [x]
  | x :: y :: rest => (x + 128) :: markHi (y :: rest)

/-- Pad a digit list on the left with zeros to length 8. -/
def leftPad8 (l : List Nat) : List Nat := List.replicate (8 - l.length) 0 ++ l

/-- Modelled from the spec: the varint encoding rules of the file format,
which are not implemented in the source.  A value below 2 ^ 56 is written as
its base-128 digits, every byte but the last carrying the continuation bit;
a larger 64-bit value is written as eight continuation bytes holding the top
56 bits seven at a time followed by a ninth byte holding all low 8 bits. -/
def varintEncode (v : Nat) : List Nat :=
  if v < 2 ^ 56 then markHi (varintGroups v)
  else (leftPad8 (varintGroups (v >>> 8))).map (fun g => g + 128) ++ [v % 256]

/-! ## Serial-type decoder (Record.parse_serial in the source) -/

/-- Embedding of Record.parse_serial: map a serial-type code to a byte
width.  Python floor division and Lean integer division agree on every
branch reached here because the only negative dividends are even. -/
def parse_serial (serial : Nat) : Int :=
  if serial = 0 then 0
  else if serial = 1 then 1
  else if serial = 2 then 2
  else if serial = 3 then 3
  else if serial = 4 then 4
  else if serial = 5 then 6
  else if serial = 6 then 8
  else if serial = 7 then 8
  else if serial = 8 then 0
  else if serial = 9 then 0
  else if serial % 2 = 0 then ((serial : Int) - 12) / 2
  else if serial % 2 = 1 then ((serial : Int) - 13) / 2
  else -1

/-! ## Byte-level page decoder (Page.__init__ in the source) -/

/-- Big-endian integer from n bytes of the file starting at the offset,
mirroring int.from_bytes of a read that may come up short at end of file. -/
def readInt (f : List Nat) (off n : Nat) : Nat :=
  ((f.drop off).take n).foldl (fun a b => a * 256 + b) 0

structure ParsedPage where
  page_type : Nat
  first_freeblock : Nat
  num_cells : Nat
  start_content : Nat
  free_bytes : Nat
  rightmost_pointer : Option Nat
  cell_offsets : List Nat
  cell_positions : List Nat
deriving DecidableEq

/-- Embedding of Page.__init__ down to the absolute positions at which the
cells are parsed: the header is read at page_offset; the two-byte cell
pointers follow the header; each pointer is shifted by page_offset unless
page_offset equals 100 (the schema page call site).  An unrecognised page
type byte makes the constructor fail, giving none. -/
def parsePage (f : List Nat) (page_offset : Nat) : Option ParsedPage :=
  let t := readInt f page_offset 1
  if t = 2 ∨ t = 5 ∨ t = 10 ∨ t = 13 then
    let interior := t = 2 ∨ t = 5
    let num_cells := readInt f (page_offset + 3) 2
    let sc0 := readInt f (page_offset + 5) 2
    let ptrStart := if interior then page_offset + 12 else page_offset + 8
    let cell_offsets := (List.range num_cells).map (fun i => readInt f (ptrStart + 2 * i) 2)
    some
      { page_type := t
        first_freeblock := readInt f (page_offset + 1) 2
        num_cells := num_cells
        start_content := if sc0 = 0 then 65536 else sc0
        free_bytes := readInt f (page_offset + 7) 1
        rightmost_pointer := if interior then some (readInt f (page_offset + 8) 4) else none
        cell_offsets := cell_offsets
        cell_positions := cell_offsets.map (fun o => if page_offset ≠ 100 then o + page_offset else o) }
  else none

/-- Embedding of the schema-page load in Database.__init__, which parses the
page-1 header starting at byte 100. -/
def schemaPage (f : List Nat) : Option ParsedPage := parsePage f 100

/-- Embedding of the root-page loads in Database.__init__ and in the
traversal, which place page r at byte (r - 1) * page_size. -/
def loadPageAt (f : List Nat) (page_size r : Nat) : Option ParsedPage :=
  parsePage f ((r - 1) * page_size)

/-! ## Decoded pages and the catalog environment

The traversal in Database.get_col_values_from_table works over decoded
pages.  A page store maps page numbers to decoded page data; fetching a
page stands for the Page(database_file, (n - 1) * page_size) constructions
of the source. -/

structure LeafTableCell where
  row_id : Nat
  content : List String
deriving DecidableEq

structure InteriorTableCell where
  left_child_pointer : Nat
  row_id : Nat
deriving DecidableEq

structure IndexContent where
  col_name : String
  idx_row_id : Nat
deriving DecidableEq

structure InteriorIndexCell where
  left_child_pointer : Nat
  content : IndexContent
deriving DecidableEq

inductive PageData where
  | leafTable (cells : List LeafTableCell) : PageData
  | interiorTable (cells : List InteriorTableCell) (rightmost_pointer : Nat) : PageData
  | leafIndex (cells : List IndexContent) : PageData
  | interiorIndex (cells : List InteriorIndexCell) (rightmost_pointer : Nat) : PageData
deriving DecidableEq

/-- The catalog facts the query path reads from Database: the page store,
the root page of the queried table, its declared column fragments
(TableMetadata.col_names), and the per-column index map, already composed
with the root-page lookup of the index metadata. -/
structure DbEnv where
  store : Nat → Option PageData
  table_root : Nat
  col_names : List String
  index_to_table : List (String × Nat)

def fetchPage (env : DbEnv) (n : Nat) : Res PageData :=
  match env.store n with
  | some p => .ok p
  | none => .err

def numCells : PageData → Nat
  | .leafTable cells => cells.length
  | .interiorTable cells _ => cells.length
  | .leafIndex cells => cells.length
  | .interiorIndex cells _ => cells.length

/-- Embedding of Database.get_rows_in_table: the cell count of the root
page of the table. -/
def get_rows_in_table (env : DbEnv) : Res Nat :=
  (fetchPage env env.table_root).map numCells

/-- Python dict insertion: overwrite in place if the key exists, else
append, preserving first-insertion order. -/
def dictInsert (d : List (Nat × String)) (k : Nat) (v : String) : List (Nat × String) :=
  if d.any (fun p => p.1 = k) then d.map (fun p => if p.1 = k then (k, v) else p)
  else d ++ [(k, v)]

/-- Embedding of the projection loop over col_indices in the leaf-table
branch: each requested column slice is looked up (KeyError gives none) and
a requested index of 0 is replaced by the decimal string of the row id. -/
def project_cols (cell : LeafTableCell) : List Nat → Option (List String)
  | [] => some []
  | ci :: rest =>
    match cell.content.get? ci with
    | none => none
    | some s =>
      let cur := if ci = 0 then toString cell.row_id else s
      (project_cols cell rest).map (fun tl => cur :: tl)

/-- Embedding of the per-cell body of the leaf-table branch: value filter
first, else row-id filter, then projection into the result dict. -/
def processLeafCells (filter_index : Option Nat) (fv : Option String) (ids : List Nat)
    (col_indices : List Nat) :
    List LeafTableCell → List (Nat × String) → Res (List (Nat × String))
  | [], result => .ok result
  | cell :: rest, result =>
    let emit : Res (List (Nat × String)) :=
      match project_cols cell col_indices with
      | none => .err
      | some vals =>
        processLeafCells filter_index fv ids col_indices rest
          (dictInsert result cell.row_id (String.intercalate "|" vals))
    match filter_index with
    | some fi =>
      match cell.content.get? fi with
      | none => .err
      | some value =>
        match fv with
        | none => processLeafCells filter_index fv ids col_indices rest result
        | some v =>
          if value ≠ v then processLeafCells filter_index fv ids col_indices rest result
          else emit
    | none =>
      if ids.length > 0 then
        if ids.contains cell.row_id then emit
        else processLeafCells filter_index fv ids col_indices rest result
      else emit

/-- Push the pages for a list of child pointers onto the stack in order;
because the stack top is the list head, later pushes end up nearer the
head, exactly as Python list.append followed by list.pop. -/
def pushPages (env : DbEnv) : List Nat → List PageData → Res (List PageData)
  | [], st => .ok st
  | p :: ps, st => (fetchPage env p).bind (fun pg => pushPages env ps (pg :: st))

/-- Embedding of the binary-search while loop of the interior-table branch
for one search id.  Note the source updates neither bound when the probed
row id equals the search id, so that case recurses on fuel alone. -/
def idSearchLoop (env : DbEnv) (cells : List InteriorTableCell) (rightmost : Nat)
    (search_id : Nat) : Nat → Nat → List PageData → Nat → Res (List PageData)
  | _, _, _, 0 => .fuelOut
  | l, r, stack, fuel + 1 =>
    if l < r then
      let mid := (l + r) / 2
      match cells.get? mid with
      | none => .err
      | some cell =>
        if cell.row_id > search_id then
          (fetchPage env cell.left_child_pointer).bind (fun pg =>
            idSearchLoop env cells rightmost search_id l (mid - 1) (pg :: stack) fuel)
        else if cell.row_id < search_id then
          match cells.get? (mid + 1) with
          | some cell2 =>
            (fetchPage env cell2.left_child_pointer).bind (fun pg =>
              idSearchLoop env cells rightmost search_id (mid + 1) r (pg :: stack) fuel)
          | none =>
            (fetchPage env rightmost).bind (fun pg =>
              idSearchLoop env cells rightmost search_id (mid + 1) r (pg :: stack) fuel)
        else
          idSearchLoop env cells rightmost search_id l r stack fuel
    else .ok stack

/-- Embedding of the for loop over the requested ids at an interior-table
page: the two boundary checks read the first and last cells (IndexError on
an empty page), then the binary search pushes candidate children. -/
def idsFold (env : DbEnv) (cells : List InteriorTableCell) (rightmost : Nat) :
    List Nat → List PageData → Nat → Res (List PageData)
  | [], stack, _ => .ok stack
  | sid :: restIds, stack, fuel =>
    match cells.head?, cells.getLast? with
    | some c0, some cl =>
      if sid < c0.row_id then
        (fetchPage env c0.left_child_pointer).bind (fun pg =>
          idsFold env cells rightmost restIds (pg :: stack) fuel)
      else if sid > cl.row_id then
        (fetchPage env rightmost).bind (fun pg =>
          idsFold env cells rightmost restIds (pg :: stack) fuel)
      else
        (idSearchLoop env cells rightmost sid 0 cells.length stack fuel).bind (fun stack2 =>
          idsFold env cells rightmost restIds stack2 fuel)
    | _, _ => .err

/-- Embedding of the binary-search while loop of the interior-index branch.
A missing filter value raises (TypeError on comparison).  When the probed
key equals the filter value the source appends the row id and updates
neither bound, so that case recurses on fuel alone. -/
def interiorIndexLoop (env : DbEnv) (cells : List InteriorIndexCell) (rightmost : Nat)
    (fv : Option String) :
    Nat → Nat → List PageData → List Nat → Nat → Res (List PageData × List Nat)
  | _, _, _, _, 0 => .fuelOut
  | l, r, stack, row_ids, fuel + 1 =>
    if l < r then
      let mid := (l + r) / 2
      match cells.get? mid with
      | none => .err
      | some cell =>
        match fv with
        | none => .err
        | some v =>
          if strLt v cell.content.col_name then
            (fetchPage env cell.left_child_pointer).bind (fun pg =>
              interiorIndexLoop env cells rightmost fv l (mid - 1) (pg :: stack) row_ids fuel)
          else if strLt cell.content.col_name v then
            match cells.get? (mid + 1) with
            | some cell2 =>
              (fetchPage env cell2.left_child_pointer).bind (fun pg =>
                interiorIndexLoop env cells rightmost fv (mid + 1) r (pg :: stack) row_ids fuel)
            | none =>
              (fetchPage env rightmost).bind (fun pg =>
                interiorIndexLoop env cells rightmost fv (mid + 1) r (pg :: stack) row_ids fuel)
          else
            interiorIndexLoop env cells rightmost fv l r stack
              (row_ids ++ [cell.content.idx_row_id]) fuel
    else .ok (stack, row_ids)

/-- Embedding of the left expansion in the leaf-index branch: starting at a
matched cell, collect row ids while the key still matches, stepping left
and stopping when the front of the page is passed. -/
def expandLeft (cells : List IndexContent) (v : String) : Nat → List Nat → List Nat
  | mid, acc =>
    match cells.get? mid with
    | none => acc
    | some c =>
      if c.col_name = v then
        let acc2 := acc ++ [c.idx_row_id]
        if mid = 0 then acc2 else expandLeft cells v (mid - 1) acc2
      else acc

/-- Embedding of the right expansion in the leaf-index branch after the
first (unguarded) access: collect row ids while the key matches, stopping
at the end of the page. -/
def expandRightList (v : String) : List IndexContent → List Nat → List Nat
  | [], acc => acc
  | c :: rest, acc =>
    if c.col_name = v then expandRightList v rest (acc ++ [c.idx_row_id]) else acc

/-- Embedding of the binary-search while loop of the leaf-index branch.  On
a hit the source expands left from the match, then reads the cell one past
the match without a bounds check (IndexError when the match is the last
cell), expands right, and sets l to r so the loop exits. -/
def leafIndexLoop (cells : List IndexContent) (fv : Option String) :
    Nat → Nat → List Nat → Nat → Res (List Nat)
  | _, _, _, 0 => .fuelOut
  | l, r, row_ids, fuel + 1 =>
    if l < r then
      let mid := (l + r) / 2
      match cells.get? mid with
      | none => .err
      | some cell =>
        match fv with
        | none => .err
        | some v =>
          if strLt v cell.col_name then leafIndexLoop cells fv l (mid - 1) row_ids fuel
          else if strLt cell.col_name v then leafIndexLoop cells fv (mid + 1) r row_ids fuel
          else
            let afterLeft := expandLeft cells v mid row_ids
            match cells.get? (mid + 1) with
            | none => .err
            | some _ =>
              let afterRight := expandRightList v (cells.drop (mid + 1)) afterLeft
              leafIndexLoop cells fv r r afterRight fuel
    else .ok row_ids

/-- Embedding of the main while loop over the page stack in
Database.get_col_values_from_table, with one unit of fuel per iteration;
the inner while loops receive the remaining fuel. -/
def mainLoop (env : DbEnv) (filter_index : Option Nat) (fv : Option String) (ids : List Nat)
    (has_id_filter : Bool) (col_indices : List Nat) :
    Nat → List PageData → List (Nat × String) → List Nat →
    Res (List (Nat × String) × List Nat)
  | 0, _, _, _ => .fuelOut
  | _ + 1, [], result, row_ids => .ok (result, row_ids)
  | fuel + 1, page :: stack, result, row_ids =>
    match page with
    | .leafTable cells =>
      (processLeafCells filter_index fv ids col_indices cells result).bind (fun result2 =>
        mainLoop env filter_index fv ids has_id_filter col_indices fuel stack result2 row_ids)
    | .interiorTable cells rightmost =>
      if has_id_filter then
        (idsFold env cells rightmost ids stack fuel).bind (fun stack2 =>
          mainLoop env filter_index fv ids has_id_filter col_indices fuel stack2 result row_ids)
      else
        (pushPages env (cells.map (fun c => c.left_child_pointer)) stack).bind (fun stack2 =>
          mainLoop env filter_index fv ids has_id_filter col_indices fuel stack2 result row_ids)
    | .interiorIndex cells rightmost =>
      (interiorIndexLoop env cells rightmost fv 0 cells.length stack row_ids fuel).bind
        (fun pr =>
          mainLoop env filter_index fv ids has_id_filter col_indices fuel pr.1 result pr.2)
    | .leafIndex cells =>
      (leafIndexLoop cells fv 0 cells.length row_ids fuel).bind (fun row_ids2 =>
        mainLoop env filter_index fv ids has_id_filter col_indices fuel stack result row_ids2)

def lookupIndexRoot (m : List (String × Nat)) (k : String) : Option Nat :=
  (m.find? (fun p => p.1 = k)).map (fun p => p.2)

/-- Embedding of the inner for loop over filters in the filter and index
scan of get_col_values_from_table: when any index exists, a missing entry
for the filtered column raises KeyError; a filter column occurring in the
current declared-column fragment sets the filter index. -/
def scanFilters (env : DbEnv) (i : Nat) (name : String) :
    List (String × String) → Option Nat × Option Nat → Res (Option Nat × Option Nat)
  | [], acc => .ok acc
  | f :: rest, (fidx, iroot) =>
    if env.index_to_table.length > 0 then
      match lookupIndexRoot env.index_to_table f.1 with
      | none => .err
      | some root =>
        let fidx2 := if strIn f.1 name then some i else fidx
        scanFilters env i name rest (fidx2, some root)
    else
      let fidx2 := if strIn f.1 name then some i else fidx
      scanFilters env i name rest (fidx2, iroot)

/-- Embedding of the outer for loop over the declared column fragments. -/
def scanCols (env : DbEnv) (filters : List (String × String)) :
    List (Nat × String) → Option Nat × Option Nat → Res (Option Nat × Option Nat)
  | [], acc => .ok acc
  | (i, name) :: rest, acc =>
    (scanFilters env i name filters acc).bind (scanCols env filters rest)

def filterScan (env : DbEnv) (filters : List (String × String)) :
    Res (Option Nat × Option Nat) :=
  scanCols env filters env.col_names.enum (none, none)

/-- Embedding of one invocation of Database.get_col_values_from_table up to
but excluding its tail recursion: resolve the requested columns, scan
filters for a filter index and an index root, pick the root page (the table
root when no index applies or ids were passed, the index root otherwise)
and run the stack loop.  Returns the result dict and the collected row ids. -/
def gcvBody (env : DbEnv) (col_list : List String) (filters : List (String × String))
    (ids : List Nat) (fuel : Nat) : Res (List (Nat × String) × List Nat) :=
  let col_indices :=
    col_list.filterMap (fun col => env.col_names.findIdx? (fun name => strIn col name))
  (filterScan env filters).bind (fun fi =>
    if col_indices.length = 0 then .ok ([], [])
    else
      let root_num :=
        match fi.2, ids with
        | none, _ => env.table_root
        | some _, _ :: _ => env.table_root
        | some r, [] => r
      (fetchPage env root_num).bind (fun rootPage =>
        let fv := filters.head?.map (fun f => f.2)
        mainLoop env fi.1 fv ids (ids.length > 0) col_indices fuel [rootPage] [] []))

/-- Embedding of the full Database.get_col_values_from_table as called by
the select path (ids absent): when the first pass collected row ids, the
source re-invokes itself with those ids and returns that dict; otherwise it
returns the dict of the first pass. -/
def gcvFinalDict (env : DbEnv) (col_list : List String) (filters : List (String × String))
    (fuel : Nat) : Res (List (Nat × String)) :=
  (gcvBody env col_list filters [] fuel).bind (fun pr =>
    if pr.2.length > 0 then
      (gcvBody env col_list filters pr.2 fuel).map (fun pr2 => pr2.1)
    else .ok pr.1)

/-- The printed values of the query: the dict values in insertion order. -/
def get_col_values_from_table (env : DbEnv) (col_list : List String)
    (filters : List (String × String)) (fuel : Nat) : Res (List String) :=
  (gcvFinalDict env col_list filters fuel).map (List.map Prod.snd)

/-- The row ids of the emitted rows, in emission order. -/
def gcvRowIds (env : DbEnv) (col_list : List String) (filters : List (String × String))
    (fuel : Nat) : Res (List Nat) :=
  (gcvFinalDict env col_list filters fuel).map (List.map Prod.fst)

/-! ## Schema catalog keys and the .tables command -/

/-- The fields of a schema cell that Database.__init__ reads: the kind at
content index 0 and the name column at content index 2. -/
structure SchemaCell where
  typ : String
  name : String
deriving DecidableEq

def catalogInsert (keys : List String) (k : String) : List String :=
  if keys.contains k then keys else keys ++ [k]

/-- Embedding of the catalog-key construction of Database.__init__: an index
cell is keyed by the kind prepended to the name, every other cell by its
name; dict keys keep first-insertion order. -/
def catalogKeysGo (keys : List String) : List SchemaCell → List String
  | [] => keys
  | c :: rest =>
    catalogKeysGo (catalogInsert keys (if c.typ = "index" then c.typ ++ c.name else c.name)) rest

def catalogKeys (cells : List SchemaCell) : List String := catalogKeysGo [] cells

/-- Embedding of the .tables command output: the catalog keys joined by
single spaces. -/
def tablesOutput (cells : List SchemaCell) : String :=
  String.intercalate " " (catalogKeys cells)

/-- The number of schema cells whose kind is table. -/
def tableKindCount (cells : List SchemaCell) : Nat :=
  (cells.filter (fun c => c.typ == "table")).length

/-! ## Command dispatch -/

inductive Dispatch where
  | dbinfo : Dispatch
  | tables : Dispatch
  | query : Dispatch
  | invalid (cmd : String) : Dispatch
deriving DecidableEq

/-- Embedding of the top-level command dispatch: the two exact dot commands,
then the substring test for select or SELECT, then the invalid-command
print. -/
def dispatch (command : String) : Dispatch :=
  if command = ".dbinfo" then .dbinfo
  else if command = ".tables" then .tables
  else if strIn "select" command || strIn "SELECT" command then .query
  else .invalid command

def invalidMessage (command : String) : String := "Invalid command: " ++ command

/-! ## Reachable leaf cells (modelled from the spec) -/

/-- Modelled from the spec: the number of leaf-table cells reachable from a
page, descending through all N left children plus the rightmost child of
every interior-table page.  The source has no such function; the count
command reads only the root page.  Fuel bounds the depth. -/
def reachableLeafCells (store : Nat → Option PageData) : Nat → Nat → Option Nat
  | 0, _ => none
  | fuel + 1, pn =>
    match store pn with
    | some (.leafTable cells) => some cells.length
    | some (.interiorTable cells rm) =>
      (cells.map (fun c => c.left_child_pointer) ++ [rm]).foldl
        (fun acc c => acc.bind (fun a => (reachableLeafCells store fuel c).map (a + ·)))
        (some 0)
    | _ => none

/-! ## Concrete stores and environments used by the evaluations -/

/-- Two-level table: interior root (page 2) with two cells pointing to
pages 3 and 4, rightmost child page 5; leaves hold row ids 1 and 2, then 3,
then 4. -/
def storeTwoLevel : Nat → Option PageData
  | 2 => some (.interiorTable [⟨3, 2⟩, ⟨4, 3⟩] 5)
  | 3 => some (.leafTable [⟨1, ["", "r1"]⟩, ⟨2, ["", "r2"]⟩])
  | 4 => some (.leafTable [⟨3, ["", "r3"]⟩])
  | 5 => some (.leafTable [⟨4, ["", "r4"]⟩])
  | _ => none

def envTwoLevel : DbEnv :=
  { store := storeTwoLevel
    table_root := 2
    col_names := ["(id integer primary key", " name text)"]
    index_to_table := [] }

/-- Single-leaf table (page 2) with two rows, and a single-leaf index
(page 3) on the name column listing both keys. -/
def storeIndexed : Nat → Option PageData
  | 2 => some (.leafTable [⟨1, ["", "a"]⟩, ⟨2, ["", "b"]⟩])
  | 3 => some (.leafIndex [⟨"a", 1⟩, ⟨"b", 2⟩])
  | _ => none

def envWithIdx : DbEnv :=
  { store := storeIndexed
    table_root := 2
    col_names := ["(id integer primary key", " name text)"]
    index_to_table := [("name", 3)] }

def envNoIdx : DbEnv :=
  { store := storeIndexed
    table_root := 2
    col_names := ["(id integer primary key", " name text)"]
    index_to_table := [] }

/-- Table on page 2 (never reached) and an index whose root (page 4) is an
interior-index page with a single cell whose key is the letter a. -/
def storeSpin : Nat → Option PageData
  | 2 => some (.leafTable [⟨1, ["x"]⟩])
  | 4 => some (.interiorIndex [⟨9, ⟨"a", 7⟩⟩] 5)
  | _ => none

def envSpin : DbEnv :=
  { store := storeSpin
    table_root := 2
    col_names := ["(c0 text)"]
    index_to_table := [("c0", 4)] }

/-- Single-leaf table root with three rows, for the leaf-root count case. -/
def storeLeafRoot : Nat → Option PageData
  | 2 => some (.leafTable [⟨1, ["", "u"]⟩, ⟨2, ["", "v"]⟩, ⟨3, ["", "w"]⟩])
  | _ => none

def envLeafRoot : DbEnv :=
  { store := storeLeafRoot
    table_root := 2
    col_names := ["(id integer primary key", " name text)"]
    index_to_table := [] }

/-! ## Theorems -/

/-- C1: evaluation witnessing that the index path and the full-scan path
disagree.  On a table with rows 1 (key a) and 2 (key b) and a leaf index
holding both keys, the query WHERE name = a returns no rows through the
index (the leaf-index binary search sets r to mid - 1 and skips the
matching first cell), while the same query as a full scan with per-record
filtering returns row id 1.  The result multisets of row ids differ, so
index and full scan are not equivalent. -/
theorem c1_index_vs_fullscan_eval :
    gcvRowIds envWithIdx ["name"] [("name", "a")] 100 = Res.ok []
    ∧ gcvRowIds envNoIdx ["name"] [("name", "a")] 100 = Res.ok [1]
    ∧ ([] : List Nat) ≠ [1] :=
  ⟨by decide, by decide, by decide⟩

/-- C2: evaluation of a full table scan over a two-level tree.  The root
interior page has two cells (subtrees with row ids 1, 2 and 3) and a
rightmost child (row id 4).  The scan emits row ids 3, 1, 2: children are
visited in reverse order because they are pushed onto a LIFO stack, the
rightmost child is never pushed, and the emission order is not ascending,
although four leaf cells are reachable. -/
theorem c2_fullscan_eval :
    gcvRowIds envTwoLevel ["name"] [] 100 = Res.ok [3, 1, 2]
    ∧ reachableLeafCells envTwoLevel.store 100 2 = some 4
    ∧ ¬ List.Sorted (· ≤ ·) ([3, 1, 2] : List Nat) :=
  ⟨rfl, rfl, by decide⟩

/-- C3 counterexample: on the two-level table the count command returns the
root page's cell count 2, while 4 leaf-table cells are reachable from the
root, so SELECT COUNT(*) does not print the reachable leaf-cell count. -/
theorem c3_counterexample :
    get_rows_in_table envTwoLevel = Res.ok 2
    ∧ reachableLeafCells envTwoLevel.store 100 2 = some 4
    ∧ (2 : Nat) ≠ 4 :=
  ⟨rfl, rfl, by decide⟩

/-- C3 amended: SELECT COUNT(*) FROM T returns the cell count of T's root
page; when the root is a leaf-table page this equals the number of
leaf-table cells reachable from the root. -/
theorem c3_amended_count (env : DbEnv) (cells : List LeafTableCell)
    (h : env.store env.table_root = some (.leafTable cells)) :
    get_rows_in_table env = Res.ok cells.length
    ∧ reachableLeafCells env.store 1 env.table_root = some cells.length := by
  constructor
  · simp [get_rows_in_table, fetchPage, h, Res.map, numCells]
  · simp [reachableLeafCells, h]

/-- C3 amended, witness: the leaf-root environment with three rows. -/
theorem c3_amended_count_witness :
    get_rows_in_table envLeafRoot = Res.ok 3
    ∧ reachableLeafCells envLeafRoot.store 1 2 = some 3 :=
  c3_amended_count envLeafRoot
    [⟨1, ["", "u"]⟩, ⟨2, ["", "v"]⟩, ⟨3, ["", "w"]⟩] rfl

/-- C8 counterexample: the serial-type decoder returns the width -1 for the
codes 10 and 11, and raises nothing, so a width below 0 does occur. -/
theorem c8_counterexample :
    parse_serial 10 = -1 ∧ parse_serial 11 = -1 ∧ ¬ (0 ≤ parse_serial 10) :=
  ⟨by decide, by decide, by decide⟩

/-- C8 amended: for every serial-type code other than 10 and 11 the decoder
returns a width that is at least 0; for the codes 10 and 11 it returns -1
silently, and no BadSerialType failure exists in the program. -/
theorem c8_amended_nonneg (s : Nat) (h10 : s ≠ 10) (h11 : s ≠ 11) :
    0 ≤ parse_serial s := by
  by_cases hs : s < 12
  · interval_cases s
    · decide
    · decide
    · decide
    · decide
    · decide
    · decide
    · decide
    · decide
    · decide
    · decide
    · exact absurd rfl h10
    · exact absurd rfl h11
  · push_neg at hs
    rw [parse_serial, if_neg (by omega : ¬ s = 0), if_neg (by omega : ¬ s = 1),
      if_neg (by omega : ¬ s = 2), if_neg (by omega : ¬ s = 3),
      if_neg (by omega : ¬ s = 4), if_neg (by omega : ¬ s = 5),
      if_neg (by omega : ¬ s = 6), if_neg (by omega : ¬ s = 7),
      if_neg (by omega : ¬ s = 8), if_neg (by omega : ¬ s = 9)]
    by_cases he : s % 2 = 0
    · rw [if_pos he]
      have hz : (0 : Int) ≤ (s : Int) - 12 := by
        have hc : (12 : Int) ≤ (s : Int) := by exact_mod_cast hs
        omega
      exact Int.ediv_nonneg hz (by norm_num)
    · rw [if_neg he, if_pos (by omega : s % 2 = 1)]
      have hz : (0 : Int) ≤ (s : Int) - 13 := by
        have h13 : 13 ≤ s := by omega
        have hc : (13 : Int) ≤ (s : Int) := by exact_mod_cast h13
        omega
      exact Int.ediv_nonneg hz (by norm_num)

/-- C8 amended, witness: code 13 (one-byte text) has nonnegative width. -/
theorem c8_amended_nonneg_witness :
    (13 : Nat) ≠ 10 ∧ (13 : Nat) ≠ 11 ∧ 0 ≤ parse_serial 13 :=
  ⟨by decide, by decide, c8_amended_nonneg 13 (by decide) (by decide)⟩

/-- C9: for every emitted row, if a requested column index is 0 (the
primary-key integer alias) then the projected value at that position is the
decimal string of the cell's row id, not the record slot. -/
theorem c9_rowid_projection (cell : LeafTableCell) (cis : List Nat)
    (out : List String) (i : Nat)
    (hp : project_cols cell cis = some out) (hi : cis.get? i = some 0) :
    out.get? i = some (toString cell.row_id) := by
  induction cis generalizing out i with
  | nil => simp at hi
  | cons ci rest ih =>
    rw [project_cols] at hp
    cases hc : cell.content.get? ci with
    | none => rw [hc] at hp; exact absurd hp (by simp)
    | some s =>
      rw [hc] at hp
      cases hrest : project_cols cell rest with
      | none => rw [hrest] at hp; exact absurd hp (by simp)
      | some tl =>
        rw [hrest] at hp
        simp only [Option.map_some'] at hp
        injection hp with hp2
        subst hp2
        cases i with
        | zero =>
          have hci : ci = 0 := by simpa using hi
          subst hci
          simp
        | succ j =>
          simp only [List.get?] at hi
          simpa using ih tl j hrest hi

/-- C9 witness: projecting columns 0 and 1 of a row with row id 7 yields
the decimal string 7 in the first position. -/
theorem c9_rowid_projection_witness :
    project_cols ⟨7, ["", "x"]⟩ [0, 1] = some ["7", "x"]
    ∧ (["7", "x"] : List String).get? 0 = some (toString (7 : Nat)) :=
  ⟨rfl, c9_rowid_projection ⟨7, ["", "x"]⟩ [0, 1] ["7", "x"] 0 rfl rfl⟩

/-- C10: for every command other than the two exact dot commands, the
program dispatches it as a SQL query exactly when it contains the substring
select or the substring SELECT, and otherwise reports it as an invalid
command. -/
theorem c10_dispatch (c : String) (h1 : c ≠ ".dbinfo") (h2 : c ≠ ".tables") :
    (dispatch c = Dispatch.query
      ↔ (strIn "select" c = true ∨ strIn "SELECT" c = true))
    ∧ (dispatch c ≠ Dispatch.query → dispatch c = Dispatch.invalid c) := by
  unfold dispatch
  rw [if_neg h1, if_neg h2]
  by_cases hsel : (strIn "select" c || strIn "SELECT" c) = true
  · rw [if_pos hsel]
    simp only [Bool.or_eq_true] at hsel
    exact ⟨⟨fun _ => hsel, fun _ => rfl⟩, fun hq => absurd rfl hq⟩
  · rw [if_neg hsel]
    simp only [Bool.or_eq_true] at hsel
    push_neg at hsel
    constructor
    · constructor
      · intro hq; exact absurd hq (by simp)
      · intro hor; cases hor with
        | inl h => exact absurd h hsel.1
        | inr h => exact absurd h hsel.2
    · intro _; rfl

/-- C10 witness: the mixed-case command Select name from apples is not a
dot command, contains neither select nor SELECT as a substring, and is
dispatched as an invalid command rather than a query. -/
theorem c10_dispatch_witness :
    (dispatch "Select name from apples" = Dispatch.query
      ↔ (strIn "select" "Select name from apples" = true
         ∨ strIn "SELECT" "Select name from apples" = true))
    ∧ (dispatch "Select name from apples" ≠ Dispatch.query
        → dispatch "Select name from apples"
            = Dispatch.invalid "Select name from apples")
    ∧ dispatch "Select name from apples"
        = Dispatch.invalid "Select name from apples" :=
  ⟨(c10_dispatch "Select name from apples" (by decide) (by decide)).1,
   (c10_dispatch "Select name from apples" (by decide) (by decide)).2,
   by decide⟩

/-! ### Varint round-trip machinery (C4) -/

theorem byteLow_shift : ∀ g < 128, g >>> 7 = 0 := by decide

theorem byteHigh_shift : ∀ g < 128, (g + 128) >>> 7 = 1 := by decide

theorem byteHigh_xor : ∀ g < 128, (g + 128) ^^^ 128 = g := by decide

theorem groupsAux_lt (fuel : Nat) : ∀ v : Nat, ∀ g ∈ groupsAux fuel v, g < 128 := by
  induction fuel with
  | zero =>
    intro v g hg
    simp only [groupsAux, List.mem_singleton] at hg
    subst hg
    exact Nat.mod_lt _ (by norm_num)
  | succ n ih =>
    intro v g hg
    rw [groupsAux] at hg
    by_cases hv : v < 128
    · rw [if_pos hv] at hg
      simp only [List.mem_singleton] at hg
      subst hg; exact hv
    · rw [if_neg hv] at hg
      rcases List.mem_append.mp hg with h | h
      · exact ih (v / 128) g h
      · simp only [List.mem_singleton] at h
        subst h
        exact Nat.mod_lt _ (by norm_num)

theorem groupsAux_ne_nil (fuel v : Nat) : groupsAux fuel v ≠ [] := by
  cases fuel with
  | zero => simp [groupsAux]
  | succ n =>
    rw [groupsAux]
    by_cases hv : v < 128
    · simp [hv]
    · simp [hv]

theorem groupsAux_foldl (fuel : Nat) :
    ∀ v : Nat, v < 128 ^ (fuel + 1) → ∀ a : Nat,
      List.foldl (fun x g => x * 128 + g) a (groupsAux fuel v)
        = a * 128 ^ (groupsAux fuel v).length + v := by
  induction fuel with
  | zero =>
    intro v hv a
    have hmod : v % 128 = v := Nat.mod_eq_of_lt (by simpa using hv)
    simp [groupsAux, hmod]
  | succ n ih =>
    intro v hv a
    rw [groupsAux]
    by_cases hlt : v < 128
    · rw [if_pos hlt]; simp
    · rw [if_neg hlt]
      have hdiv : v / 128 < 128 ^ (n + 1) := by
        rw [Nat.div_lt_iff_lt_mul (by norm_num : 0 < 128)]
        calc v < 128 ^ (n + 1 + 1) := hv
          _ = 128 ^ (n + 1) * 128 := by rw [pow_succ]
      rw [List.foldl_append]
      rw [ih (v / 128) hdiv a]
      simp only [List.foldl_cons, List.foldl_nil, List.length_append,
        List.length_singleton]
      have hvm : v / 128 * 128 + v % 128 = v := by omega
      calc (a * 128 ^ (groupsAux n (v / 128)).length + v / 128) * 128 + v % 128
          = a * (128 ^ (groupsAux n (v / 128)).length * 128)
              + (v / 128 * 128 + v % 128) := by ring
        _ = a * 128 ^ ((groupsAux n (v / 128)).length + 1) + v := by
            rw [hvm, ← pow_succ]

theorem groupsAux_len_le (fuel : Nat) :
    ∀ v k : Nat, v < 128 ^ (k + 1) → (groupsAux fuel v).length ≤ k + 1 := by
  induction fuel with
  | zero => intro v k _; simp [groupsAux]
  | succ n ih =>
    intro v k hv
    rw [groupsAux]
    by_cases hlt : v < 128
    · rw [if_pos hlt]; simp
    · rw [if_neg hlt]
      cases k with
      | zero => exact absurd (by simpa using hv) hlt
      | succ m =>
        have hdiv : v / 128 < 128 ^ (m + 1) := by
          rw [Nat.div_lt_iff_lt_mul (by norm_num : 0 < 128)]
          calc v < 128 ^ (m + 1 + 1) := hv
            _ = 128 ^ (m + 1) * 128 := by rw [pow_succ]
        have h1 := ih (v / 128) m hdiv
        simp only [List.length_append, List.length_singleton]
        omega

theorem markHi_length : ∀ l : List Nat, (markHi l).length = l.length := by
  intro l
  induction l with
  | nil => rfl
  | cons x xs ih =>
    cases xs with
    | nil => rfl
    | cons y rest =>
      rw [markHi]
      simp only [List.length_cons]
      simpa using ih

theorem readVarintLoop_markHi :
    ∀ gs : List Nat, gs ≠ [] → (∀ g ∈ gs, g < 128) → ∀ a off : Nat,
      readVarintLoop (markHi gs) a off
        = Res.ok (List.foldl (fun x g => x * 128 + g) a gs, off + gs.length) := by
  intro gs
  induction gs with
  | nil => intro h; exact absurd rfl h
  | cons g rest ih =>
    intro _ hlt a off
    have hg : g < 128 := hlt g (List.mem_cons_self g rest)
    cases rest with
    | nil =>
      rw [markHi, readVarintLoop]
      rw [if_neg (by rw [byteLow_shift g hg]; norm_num)]
      simp
    | cons g2 rest2 =>
      rw [markHi, readVarintLoop]
      rw [if_pos (byteHigh_shift g hg)]
      rw [byteHigh_xor g hg]
      rw [ih (by simp) (fun x hx => hlt x (List.mem_cons_of_mem g hx))
        (a * 128 + g) (off + 1)]
      simp only [List.foldl_cons, List.length_cons]
      have harith : off + 1 + (rest2.length + 1) = off + (rest2.length + 1 + 1) := by omega
      rw [harith]

/-- C4 counterexample: the smallest value needing a nine-byte encoding is
decoded wrongly.  The encoding of 2 ^ 56 is eight continuation bytes
followed by the byte 0; the decoder takes only 7 bits of the ninth byte and
returns 2 ^ 55, not 2 ^ 56, so decoding does not reproduce every encoded
64-bit value. -/
theorem c4_counterexample :
    read_varint (varintEncode (2 ^ 56)) 0 = Res.ok (2 ^ 55, 9)
    ∧ (2 ^ 55 : Nat) ≠ 2 ^ 56 :=
  ⟨by decide, by decide⟩

/-- C4 amended: for every value below 2 ^ 56 (encodings of one to eight
bytes), decoding the format encoding reproduces the value and consumes
exactly the encoded length, which lies in [1, 8]; nine-byte encodings of
larger 64-bit values are decoded wrongly. -/
theorem c4_amended_roundtrip (v : Nat) (h : v < 2 ^ 56) :
    read_varint (varintEncode v) 0 = Res.ok (v, (varintEncode v).length)
    ∧ 1 ≤ (varintEncode v).length ∧ (varintEncode v).length ≤ 8 := by
  have henc : varintEncode v = markHi (varintGroups v) := by
    rw [varintEncode, if_pos h]
  have hne : varintGroups v ≠ [] := groupsAux_ne_nil 9 v
  have hlt : ∀ g ∈ varintGroups v, g < 128 := groupsAux_lt 9 v
  have hbound : v < 128 ^ (9 + 1) := by
    calc v < 2 ^ 56 := h
      _ ≤ 128 ^ 10 := by norm_num
  have hfold : List.foldl (fun x g => x * 128 + g) 0 (varintGroups v) = v := by
    rw [varintGroups, groupsAux_foldl 9 v hbound 0]
    simp
  have hlen8 : (varintGroups v).length ≤ 8 := by
    have h8 : v < 128 ^ (7 + 1) := by
      calc v < 2 ^ 56 := h
        _ ≤ 128 ^ 8 := by norm_num
    exact groupsAux_len_le 9 v 7 h8
  have hlen1 : 1 ≤ (varintGroups v).length :=
    List.length_pos.mpr hne
  refine ⟨?_, ?_, ?_⟩
  · rw [henc, read_varint, List.drop_zero]
    rw [readVarintLoop_markHi (varintGroups v) hne hlt 0 0]
    rw [markHi_length, hfold]
    simp
  · rw [henc, markHi_length]; exact hlen1
  · rw [henc, markHi_length]; exact hlen8

/-- C4 amended, witness: the two-byte value 300 round-trips. -/
theorem c4_amended_roundtrip_witness :
    read_varint (varintEncode 300) 0 = Res.ok (300, (varintEncode 300).length)
    ∧ 1 ≤ (varintEncode 300).length ∧ (varintEncode 300).length ≤ 8 :=
  c4_amended_roundtrip 300 (by norm_num)

/-! ### Non-termination of the interior-index search (C5) -/

theorem interiorIndexLoop_spin (fuel : Nat) :
    ∀ stack : List PageData, ∀ row_ids : List Nat,
      interiorIndexLoop envSpin [⟨9, ⟨"a", 7⟩⟩] 5 (some "a") 0 1 stack row_ids fuel
        = Res.fuelOut := by
  induction fuel with
  | zero => intro stack row_ids; rfl
  | succ n ih => intro stack row_ids; exact ih stack (row_ids ++ [7])

theorem gcvBody_spin (n : Nat) :
    gcvBody envSpin ["c0"] [("c0", "a")] [] (n + 1) = Res.fuelOut := by
  have h := interiorIndexLoop_spin n [] []
  calc gcvBody envSpin ["c0"] [("c0", "a")] [] (n + 1)
      = Res.bind (interiorIndexLoop envSpin [⟨9, ⟨"a", 7⟩⟩] 5 (some "a") 0 1 [] [] n)
          (fun pr =>
            mainLoop envSpin (some 0) (some "a") [] false [0] n pr.1 [] pr.2) := rfl
    _ = Res.fuelOut := by rw [h]; rfl

/-- C5: refuted termination.  With an index whose root is an interior-index
page holding a single cell whose key equals the filter value, the query
never terminates: the equality branch of the interior-index binary search
updates neither bound, so for every amount of fuel the evaluation is still
unfinished.  The value is appended to the collected row ids again on every
iteration, so the source loops forever rather than completing or raising. -/
theorem c5_nonterminating :
    ∀ fuel : Nat,
      get_col_values_from_table envSpin ["c0"] [("c0", "a")] fuel = Res.fuelOut := by
  intro fuel
  cases fuel with
  | zero => rfl
  | succ n =>
    unfold get_col_values_from_table gcvFinalDict
    rw [gcvBody_spin n]
    rfl

/-! ### Catalog keys (C6) -/

/-- C6 counterexample: a schema with one table cell and one index cell on
that table.  The .tables output lists two names, the table name and the
index keyed by the kind prepended to its name column, so the listed names
are not exactly the user table names and the count differs from the number
of kind table cells. -/
theorem c6_counterexample :
    catalogKeys [⟨"table", "t"⟩, ⟨"index", "t"⟩] = ["t", "indext"]
    ∧ (catalogKeys [⟨"table", "t"⟩, ⟨"index", "t"⟩]).length
        ≠ tableKindCount [⟨"table", "t"⟩, ⟨"index", "t"⟩] :=
  ⟨by decide, by decide⟩

theorem catalogKeysGo_tables :
    ∀ cells : List SchemaCell, ∀ acc : List String,
      (∀ c ∈ cells, c.typ = "table") →
      (acc ++ cells.map (fun c => c.name)).Nodup →
      catalogKeysGo acc cells = acc ++ cells.map (fun c => c.name) := by
  intro cells
  induction cells with
  | nil => intro acc _ _; simp [catalogKeysGo]
  | cons c rest ih =>
    intro acc h1 h2
    have hct : c.typ = "table" := h1 c (List.mem_cons_self c rest)
    have hkey : (if c.typ = "index" then c.typ ++ c.name else c.name) = c.name := by
      rw [hct]; simp
    have hmemrhs : c.name ∈ c.name :: rest.map (fun c => c.name) :=
      List.mem_cons_self _ _
    have hnotmem : c.name ∉ acc := by
      intro hmem
      have hd := List.disjoint_of_nodup_append (by simpa using h2)
      exact hd hmem hmemrhs
    have hcontains : acc.contains c.name = false := by
      simpa using hnotmem
    rw [catalogKeysGo, hkey, catalogInsert, hcontains]
    simp only [Bool.false_eq_true, if_false]
    have h2' : ((acc ++ [c.name]) ++ rest.map (fun c => c.name)).Nodup := by
      simpa [List.append_assoc] using h2
    rw [ih (acc ++ [c.name]) (fun x hx => h1 x (List.mem_cons_of_mem c hx)) h2']
    simp

/-- C6 amended: the .tables output lists one name per distinct catalog key,
namely the name column of every non-index schema cell and the kind
prepended to the name column of every index cell; when every schema cell
has kind table and the names are distinct, the listed names are exactly the
table names and their number equals the number of kind table cells. -/
theorem c6_amended_tables (cells : List SchemaCell)
    (h1 : ∀ c ∈ cells, c.typ = "table")
    (h2 : (cells.map (fun c => c.name)).Nodup) :
    catalogKeys cells = cells.map (fun c => c.name)
    ∧ (catalogKeys cells).length = tableKindCount cells := by
  have hmain : catalogKeys cells = cells.map (fun c => c.name) := by
    rw [catalogKeys, catalogKeysGo_tables cells [] h1 (by simpa using h2)]
    simp
  refine ⟨hmain, ?_⟩
  rw [hmain]
  have hfilter : cells.filter (fun c => c.typ == "table") = cells := by
    rw [List.filter_eq_self]
    intro a ha
    simpa using h1 a ha
  rw [tableKindCount, hfilter]
  simp

/-- C6 amended, witness: two tables with distinct names are listed
exactly, and the count matches. -/
theorem c6_amended_tables_witness :
    catalogKeys [⟨"table", "aa"⟩, ⟨"table", "bb"⟩] = ["aa", "bb"]
    ∧ (catalogKeys [⟨"table", "aa"⟩, ⟨"table", "bb"⟩]).length
        = tableKindCount [⟨"table", "aa"⟩, ⟨"table", "bb"⟩] :=
  c6_amended_tables [⟨"table", "aa"⟩, ⟨"table", "bb"⟩] (by decide) (by decide)

/-! ### Cell positions on page 1 versus other pages (C7) -/

theorem parsePage_fields (f : List Nat) (p : Nat) (pg : ParsedPage)
    (h : parsePage f p = some pg) :
    pg.cell_positions = pg.cell_offsets.map (fun o => if p ≠ 100 then o + p else o)
    ∧ pg.num_cells = readInt f (p + 3) 2 := by
  simp only [parsePage] at h
  split at h
  · injection h with h2
    rw [← h2]
    exact ⟨rfl, rfl⟩
  · exact absurd h (by simp)

/-- A concrete 522-byte file: a leaf-table page header at byte 100 with one
cell pointer 1000, and a leaf-table page at byte 512 with one cell pointer
16 (page size 512, root page 2). -/
def fW : List Nat :=
  List.replicate 100 0 ++ [13, 0, 0, 0, 1, 0, 0, 0, 3, 232]
    ++ List.replicate 402 0 ++ [13, 0, 0, 0, 1, 0, 0, 0, 0, 16]

/-- C7: on the schema page, loaded with page offset 100, every two-byte
cell pointer is used directly as the cell's absolute position and the page
header is read starting at byte 100 (the cell-count field sits at bytes 103
and 104); on every other page, loaded at its starting byte
(r - 1) * page_size, each cell's absolute position is the page's starting
byte plus the pointer.  The page-size and root-number bounds ensure a real
page never starts at byte 100. -/
theorem c7_cell_positions (f : List Nat) (ps r : Nat) (hps : 512 ≤ ps) (hr : 2 ≤ r) :
    (schemaPage f).map ParsedPage.cell_positions = (schemaPage f).map ParsedPage.cell_offsets
    ∧ (schemaPage f).map ParsedPage.num_cells = (schemaPage f).map (fun _ => readInt f 103 2)
    ∧ (loadPageAt f ps r).map ParsedPage.cell_positions
        = (loadPageAt f ps r).map
            (fun pg => pg.cell_offsets.map (fun o => o + (r - 1) * ps)) := by
  have hne : (r - 1) * ps ≠ 100 := by
    have h1 : 1 ≤ r - 1 := by omega
    have h2 : ps ≤ (r - 1) * ps := by
      calc ps = 1 * ps := (one_mul ps).symm
        _ ≤ (r - 1) * ps := Nat.mul_le_mul_right ps h1
    omega
  refine ⟨?_, ?_, ?_⟩
  · cases h : schemaPage f with
    | none => simp
    | some pg =>
      have hf := parsePage_fields f 100 pg h
      simp only [Option.map_some']
      rw [hf.1]
      simp
  · cases h : schemaPage f with
    | none => simp
    | some pg =>
      have hf := parsePage_fields f 100 pg h
      simp only [Option.map_some']
      rw [hf.2]
  · cases h : loadPageAt f ps r with
    | none => simp
    | some pg =>
      have hf := parsePage_fields f ((r - 1) * ps) pg h
      simp only [Option.map_some']
      rw [hf.1]
      simp only [hne, ne_eq, not_false_iff, if_true]

set_option maxRecDepth 40000 in
/-- C7 witness: on the concrete file the schema page's single cell pointer
1000 is used directly as position 1000, while the page at byte 512 shifts
its pointer 16 to position 528. -/
theorem c7_cell_positions_witness :
    (512 ≤ 512 ∧ 2 ≤ 2
      ∧ ((schemaPage fW).map ParsedPage.cell_positions
            = (schemaPage fW).map ParsedPage.cell_offsets
        ∧ (schemaPage fW).map ParsedPage.num_cells
            = (schemaPage fW).map (fun _ => readInt fW 103 2)
        ∧ (loadPageAt fW 512 2).map ParsedPage.cell_positions
            = (loadPageAt fW 512 2).map
                (fun pg => pg.cell_offsets.map (fun o => o + (2 - 1) * 512))))
    ∧ (schemaPage fW).map ParsedPage.cell_positions = some [1000]
    ∧ (loadPageAt fW 512 2).map ParsedPage.cell_positions = some [528] :=
  ⟨⟨by decide, by decide, c7_cell_positions fW 512 2 (by decide) (by decide)⟩,
   by decide, by decide⟩
